import Mathlib

/-!
# Verification of the animal CRUD service

Shallow embedding of the FastAPI animal service
(`app/api/routes/animals.py`, `app/api/models/animal.py`,
`app/enums/enum_status.py`, `app/db.py`, `app/api/init_db.py`) and proofs
about its behaviour.

The backing relational table (`animals`, one row per animal, `id` primary
key) is embedded as a `List StoredAnimal`; each route handler becomes a
function from the current table (plus its request parameters) to a result
and the table after the request.  SQLAlchemy's `first()` becomes
`List.find?`, `all()` with a filter becomes `List.filter`, `delete`
becomes erasure of the found row, and a failed `commit()` (integrity
error) leaves the table unchanged, as the session's transaction is rolled
back.
-/

/-- The status enum from `app/enums/enum_status.py`: `ALIVE = 1`, `DEAD = 0`.
The table stores the integer value. -/
inductive Status where
  | ALIVE
  | DEAD
deriving DecidableEq

/-- `Status.ALIVE.value = 1`, `Status.DEAD.value = 0`. -/
def Status.value : Status → Int
  | .ALIVE => 1
  | .DEAD => 0

/-- Modelled from the spec: `app/enums/enum_race.py` is imported by the route,
init and test modules but is absent from the provided sources.  The spec
describes `race` as an "enum over a fixed closed set of species labels",
filterable "by case-insensitive label/name/value match".  The members
referenced by the sources are `CHICKEN`, `COW`, `CAT`, `DOG`; the test suite
shows that `Race.CHICKEN.value` is the string `"Poule"` (filtering by
`race=Poule` returns the chickens), so the values are the French species
labels stored in the `race` column. -/
inductive Race where
  | CHICKEN
  | COW
  | CAT
  | DOG
deriving DecidableEq, Fintype

/-- Modelled from the spec: the string stored in the `race` column for each
enum member (the species label). -/
def Race.value : Race → String
  | .CHICKEN => "Poule"
  | .COW => "Vache"
  | .CAT => "Chat"
  | .DOG => "Chien"

/-- The Python `Enum.name` of each member. -/
def Race.enumName : Race → String
  | .CHICKEN => "CHICKEN"
  | .COW => "COW"
  | .CAT => "CAT"
  | .DOG => "DOG"

/-- Modelled from the spec: the `label` property of a race member (the route
code guards uses of `r.label` with `hasattr(r, "label")`).  The species label
coincides with the stored value. -/
def Race.label (r : Race) : String := r.value

/-- `hasattr(r, "label")`: `label` is a property on the enum class, so every
member has it. -/
def Race.hasLabel (_ : Race) : Bool := true

/-- Iteration order of `for r in Race`: Python enums iterate in definition
order. -/
def raceMembers : List Race := [Race.CHICKEN, Race.COW, Race.CAT, Race.DOG]

/-- A row of the `animals` table (`app/api/models/animal.py`): `id` is the
integer primary key, `race` stores the enum value as a string, `status`
stores the enum value as an int, `created_at` is a timestamp (modelled as a
`Nat`). -/
structure StoredAnimal where
  id : Int
  name : String
  race : String
  status : Int
  birth_date : Int
  created_at : Nat
deriving DecidableEq

/-- The validated body of `POST /animals/` (`AnimalCreate`): by the time the
handler runs, pydantic has parsed `race` and `status` into enum members. -/
structure AnimalCreate where
  name : String
  race : Race
  status : Status
  birth_date : Int
deriving DecidableEq

/-- A field of the `AnimalUpdate` body.  Pydantic distinguishes a field that
is absent from the request (`unset`, excluded by
`model_dump(exclude_unset=True)`) from one explicitly set to JSON `null`
(`null`, present in the dump with value `None`). -/
inductive OptField (α : Type) where
  | unset
  | null
  | val (a : α)
deriving DecidableEq

/-- `OptField` functorial map (used for `update_data["status"].value`). -/
def OptField.map (f : α → β) : OptField α → OptField β
  | .unset => .unset
  | .null => .null
  | .val a => .val (f a)

/-- The validated body of `PUT /animals/{id}` (`AnimalUpdate`): every field
optional. -/
structure AnimalUpdate where
  name : OptField String
  race : OptField Race
  status : OptField Status
  birth_date : OptField Int
deriving DecidableEq

/-- Outcome kinds of a request, as surfaced at the HTTP layer:
`badRequest` is a raised `HTTPException(400)`, `notFound` a raised
`HTTPException(404)`, and `serverError` an unhandled Python exception
(`AttributeError`, `IntegrityError`, ...), which FastAPI turns into an
HTTP 500 response. -/
inductive ApiError where
  | badRequest
  | notFound
  | serverError
deriving DecidableEq

instance : DecidableEq (Except ApiError (List StoredAnimal)) := fun a b =>
  match a, b with
  | .ok x, .ok y => decidable_of_iff (x = y) (by simp)
  | .error x, .error y => decidable_of_iff (x = y) (by simp)
  | .ok _, .error _ => isFalse (by simp)
  | .error _, .ok _ => isFalse (by simp)

instance : DecidableEq (Except ApiError StoredAnimal) := fun a b =>
  match a, b with
  | .ok x, .ok y => decidable_of_iff (x = y) (by simp)
  | .error x, .error y => decidable_of_iff (x = y) (by simp)
  | .ok _, .error _ => isFalse (by simp)
  | .error _, .ok _ => isFalse (by simp)

instance : DecidableEq (Except ApiError Unit) := fun a b =>
  match a, b with
  | .ok x, .ok y => decidable_of_iff (x = y) (by simp)
  | .error x, .error y => decidable_of_iff (x = y) (by simp)
  | .ok _, .error _ => isFalse (by simp)
  | .error _, .ok _ => isFalse (by simp)

/-- ASCII lowercasing of one character, as Python's `str.lower()` acts on the
ASCII range (the range all race values, names and labels live in). -/
def lowerChar (c : Char) : Char :=
  if 65 ≤ c.toNat ∧ c.toNat ≤ 90 then Char.ofNat (c.toNat + 32) else c

/-- `str.lower()`, modelled as ASCII lowercasing. -/
def pyLower (s : String) : String := String.mk (s.data.map lowerChar)

/-- The race lookup performed by `create_animal` and `update_animal`
(lines 282-288 and 348-354): the first member whose `value` or `name`
matches the given string case-insensitively. -/
def findRaceByValueOrName (s : String) : Option Race :=
  raceMembers.find? fun r =>
    pyLower r.value == pyLower s || pyLower r.enumName == pyLower s

/-- The race match used by the `GET /animals/` filter (lines 207-214):
case-insensitive on `value`, `name`, or (when present) `label`. -/
def raceFilterMatch (r : Race) (s : String) : Bool :=
  pyLower r.value == pyLower s || pyLower r.enumName == pyLower s
    || (r.hasLabel && pyLower r.label == pyLower s)

/-- The filter-side race lookup of `get_all_animals`: first member matching
`raceFilterMatch`. -/
def findRaceFilter (s : String) : Option Race :=
  raceMembers.find? fun r => raceFilterMatch r s

/-- `GET /animals/` (`get_all_animals`, lines 181-226).  The `status` query
parameter is an unvalidated `Optional[int]`, `race` an `Optional[str]`.
Inside the handler the parameter `status` shadows the imported
`fastapi.status` module, so on the unknown-race branch the expression
`status.HTTP_400_BAD_REQUEST` is an attribute access on `None` or an `int`
and raises `AttributeError` — an unhandled exception (HTTP 500) — before the
intended `HTTPException(400)` is ever constructed.  The guard `if race:` is
Python truthiness, so an empty race string skips the race filter
entirely. -/
def get_all_animals (statusQ : Option Int) (raceQ : Option String)
    (db : List StoredAnimal) : Except ApiError (List StoredAnimal) :=
  let afterStatus :=
    match statusQ with
    | some s => db.filter fun a => a.status == s
    | none => db
  match raceQ with
  | none => Except.ok afterStatus
  | some race =>
    if race == "" then Except.ok afterStatus
    else
      match findRaceFilter race with
      | some m => Except.ok (afterStatus.filter fun a => a.race == m.value)
      | none => Except.error ApiError.serverError

/-- `GET /animals/{animal_id}` (`get_animal`, lines 229-254): first row with
the given id, else 404.  Read-only: the table is not modified. -/
def get_animal (db : List StoredAnimal) (animal_id : Int) :
    Except ApiError StoredAnimal :=
  match db.find? (fun a => a.id == animal_id) with
  | some a => Except.ok a
  | none => Except.error ApiError.notFound

/-- The id SQLite's autoincrement assigns to a fresh row: one more than the
largest id in the table. -/
def freshId (db : List StoredAnimal) : Int :=
  (db.foldr (fun a m => max a.id m) 0) + 1

/-- `POST /animals/` (`create_animal`, lines 257-304): reject a duplicate
name (exact string equality on the `name` column), re-validate the race by
case-insensitive value/name match, then insert a new row with a fresh id and
`created_at = datetime.now()` (passed in as `now`).  Returns the created row
and the table after the request. -/
def create_animal (db : List StoredAnimal) (a : AnimalCreate) (now : Nat) :
    Except ApiError StoredAnimal × List StoredAnimal :=
  match db.find? (fun b => b.name == a.name) with
  | some _ => (Except.error ApiError.badRequest, db)
  | none =>
    match findRaceByValueOrName a.race.value with
    | none => (Except.error ApiError.badRequest, db)
    | some m =>
      let row : StoredAnimal :=
        { id := freshId db, name := a.name, race := m.value,
          status := a.status.value, birth_date := a.birth_date,
          created_at := now }
      (Except.ok row, db ++ [row])

/-- `setattr(animal, key, value)` for one column: an unset field keeps the
old value, an explicit `null` writes SQL NULL (`none`), a set value
overwrites. -/
def applyField (old : α) : OptField α → Option α
  | .unset => some old
  | .null => none
  | .val x => some x

/-- The mutation-plus-commit step of `update_animal` (lines 362-369): apply
every set field to the row, converting `status` to its enum value; if any
column ends up NULL the `commit()` violates `nullable=False` and raises
`IntegrityError` (`none`). -/
def applyUpdate (a : StoredAnimal) (u : AnimalUpdate)
    (raceField : OptField String) : Option StoredAnimal :=
  match applyField a.name u.name, applyField a.race raceField,
      applyField a.status (u.status.map Status.value),
      applyField a.birth_date u.birth_date with
  | some n, some r, some s, some b =>
    some { id := a.id, name := n, race := r, status := s, birth_date := b,
           created_at := a.created_at }
  | _, _, _, _ => none

/-- Replace the first element satisfying `p` (the row SQLAlchemy's `first()`
fetched and `commit()` wrote back). -/
def replaceFirst (p : α → Bool) (x : α) : List α → List α
  | [] => []
  | a :: as => if p a then x :: as else a :: replaceFirst p x as

/-- The duplicate-name rejection of `update_animal` (lines 336-344): when the
`name` field is in the dump, look up the first row with that name and reject
iff it exists with a different id.  A `null` name compares as
`name IS NULL`, which matches no row of a `nullable=False` column. -/
def updateNameRejected (db : List StoredAnimal) (animal_id : Int) :
    OptField String → Bool
  | .unset => false
  | .null => false
  | .val s =>
    match db.find? (fun a => a.name == s) with
    | some existing => existing.id != animal_id
    | none => false

/-- The race validation of `update_animal` (lines 346-360): a set race is
re-looked-up by case-insensitive value/name match and replaced by the found
member's value; `None` and absent races are passed through. -/
def validateUpdateRace : OptField Race → Except ApiError (OptField String)
  | .unset => Except.ok .unset
  | .null => Except.ok .null
  | .val r =>
    match findRaceByValueOrName r.value with
    | some m => Except.ok (.val m.value)
    | none => Except.error ApiError.badRequest

/-- `PUT /animals/{animal_id}` (`update_animal`, lines 307-370): 404 when no
row has the id; 400 when the new name belongs to a different row; 400 when a
set race is unknown; otherwise write the set fields back.  Every error path
leaves the table unchanged (nothing was committed). -/
def update_animal (db : List StoredAnimal) (animal_id : Int)
    (u : AnimalUpdate) : Except ApiError StoredAnimal × List StoredAnimal :=
  match db.find? (fun a => a.id == animal_id) with
  | none => (Except.error ApiError.notFound, db)
  | some animal =>
    if updateNameRejected db animal_id u.name then
      (Except.error ApiError.badRequest, db)
    else
      match validateUpdateRace u.race with
      | Except.error e => (Except.error e, db)
      | Except.ok raceField =>
        match applyUpdate animal u raceField with
        | some row =>
          (Except.ok row, replaceFirst (fun a => a.id == animal_id) row db)
        | none => (Except.error ApiError.serverError, db)

/-- `DELETE /animals/{animal_id}` (`delete_animal`, lines 373-397): 404 when
no row has the id, otherwise hard-delete the fetched row (erase the first
row with the id) and return 204 (`ok ()`). -/
def delete_animal (db : List StoredAnimal) (animal_id : Int) :
    Except ApiError Unit × List StoredAnimal :=
  match db.find? (fun a => a.id == animal_id) with
  | none => (Except.error ApiError.notFound, db)
  | some _ => (Except.ok (), db.eraseP (fun a => a.id == animal_id))

/-- The six rows seeded by `init_db` (`app/api/init_db.py`), with ids 1-6 as
assigned by autoincrement and `created_at` timestamps abstracted to the
seeding year. -/
def initDb : List StoredAnimal :=
  [ { id := 1, name := "Obi-Wan Henobi", race := Race.CHICKEN.value,
      status := Status.ALIVE.value, birth_date := 2003, created_at := 2003 },
    { id := 2, name := "Hen-credible Ladies", race := Race.CHICKEN.value,
      status := Status.ALIVE.value, birth_date := 2004, created_at := 2004 },
    { id := 3, name := "Hen-kerchief", race := Race.CHICKEN.value,
      status := Status.DEAD.value, birth_date := 1998, created_at := 1998 },
    { id := 4, name := "Moo-gnificent", race := Race.COW.value,
      status := Status.ALIVE.value, birth_date := 1975, created_at := 1975 },
    { id := 5, name := "Moo-tiful", race := Race.COW.value,
      status := Status.ALIVE.value, birth_date := 1975, created_at := 1975 },
    { id := 6, name := "Cat-a-tonic", race := Race.CAT.value,
      status := Status.ALIVE.value, birth_date := 2012, created_at := 2012 } ]

/-- Modelled from the spec: the list/filter operation of the alternative
in-memory store implementation "backed by a process-local list" and "used
for lightweight testing", which is absent from the provided sources (only
the relational variant is under `src/`).  Per the spec it offers an optional
status filter and an optional race filter matched case-insensitively by
label/name/value, and an "unknown race on filter" is a client error. -/
def mem_list_animals (statusQ : Option Int) (raceQ : Option String)
    (store : List StoredAnimal) : Except ApiError (List StoredAnimal) :=
  let afterStatus :=
    match statusQ with
    | some s => store.filter fun a => a.status == s
    | none => store
  match raceQ with
  | none => Except.ok afterStatus
  | some race =>
    if race == "" then Except.ok afterStatus
    else
      match findRaceFilter race with
      | some m => Except.ok (afterStatus.filter fun a => a.race == m.value)
      | none => Except.error ApiError.badRequest

/-- A sample partial-update request body setting only the name. -/
def demoUpdate : AnimalUpdate :=
  { name := OptField.val "Hen Solo", race := OptField.unset,
    status := OptField.unset, birth_date := OptField.unset }

/-- The row `demoUpdate` writes back over the seeded table's first row. -/
def demoRow : StoredAnimal :=
  { id := 1, name := "Hen Solo", race := Race.CHICKEN.value,
    status := Status.ALIVE.value, birth_date := 2003, created_at := 2003 }

/-- The seeded table after applying `demoUpdate` to row 1. -/
def demoDb2 : List StoredAnimal := demoRow :: initDb.tail

/-! ## Helper lemmas -/

/-- The create/update race lookup maps every member's own value back to that
member: the re-validation of an already-parsed race always succeeds. -/
theorem raceRoundTrip : ∀ r : Race, findRaceByValueOrName r.value = some r := by
  decide

/-- No race member matches the empty filter string. -/
theorem findRaceFilter_empty : findRaceFilter "" = none := by decide

/-- A successful `find?` splits the list around the first hit. -/
theorem find?_split {α : Type} {p : α → Bool} :
    ∀ {l : List α} {a : α}, l.find? p = some a →
      ∃ l₁ l₂, l = l₁ ++ a :: l₂ ∧ ∀ b ∈ l₁, p b = false := by
  intro l
  induction l with
  | nil => intro a h; simp at h
  | cons x xs ih =>
    intro a h
    by_cases hx : p x
    · rw [List.find?_cons_of_pos _ hx] at h
      obtain rfl : x = a := by injection h
      exact ⟨[], xs, rfl, by simp⟩
    · rw [List.find?_cons_of_neg _ hx] at h
      obtain ⟨l₁, l₂, rfl, hl₁⟩ := ih h
      refine ⟨x :: l₁, l₂, rfl, ?_⟩
      intro b hb
      rcases List.mem_cons.mp hb with rfl | hb
      · simpa using hx
      · exact hl₁ b hb

/-- `replaceFirst` rewrites exactly the first element satisfying `p`. -/
theorem replaceFirst_append {α : Type} {p : α → Bool} (x : α) :
    ∀ (l₁ : List α) (a : α) (l₂ : List α),
      (∀ b ∈ l₁, p b = false) → p a = true →
      replaceFirst p x (l₁ ++ a :: l₂) = l₁ ++ x :: l₂ := by
  intro l₁
  induction l₁ with
  | nil => intro a l₂ _ ha; simp [replaceFirst, ha]
  | cons y ys ih =>
    intro a l₂ h₁ ha
    have hy : p y = false := h₁ y (List.mem_cons_self y ys)
    simp only [List.cons_append, replaceFirst, hy]
    simp only [Bool.false_eq_true, if_false]
    exact congrArg (y :: ·) (ih a l₂ (fun b hb => h₁ b (List.mem_cons_of_mem y hb)) ha)

/-- When ids are pairwise distinct (the primary-key invariant), looking a
member's id up finds that member. -/
theorem find?_id_self {db : List StoredAnimal} {A : StoredAnimal}
    (hid : (db.map fun a => a.id).Nodup) (hA : A ∈ db) :
    db.find? (fun a => a.id == A.id) = some A := by
  cases hfind : db.find? (fun a => a.id == A.id) with
  | none => exact absurd (List.find?_eq_none.mp hfind A hA) (by simp)
  | some e =>
    have he : e.id = A.id := by simpa using List.find?_some hfind
    have hmem := List.mem_of_find?_eq_some hfind
    have heq : e = A := List.inj_on_of_nodup_map hid hmem hA he
    exact congrArg some heq

/-- When names are pairwise distinct (the spec's invariant), looking a
member's name up finds that member. -/
theorem find?_name_self {db : List StoredAnimal} {A : StoredAnimal}
    (hn : (db.map fun a => a.name).Nodup) (hA : A ∈ db) :
    db.find? (fun a => a.name == A.name) = some A := by
  cases hfind : db.find? (fun a => a.name == A.name) with
  | none => exact absurd (List.find?_eq_none.mp hfind A hA) (by simp)
  | some e =>
    have he : e.name = A.name := by simpa using List.find?_some hfind
    have hmem := List.mem_of_find?_eq_some hfind
    have heq : e = A := List.inj_on_of_nodup_map hn hmem hA he
    exact congrArg some heq

/-- The update-side race validation never fails: an absent or `null` race is
passed through, and a set race is an already-parsed member whose value is
found again by `raceRoundTrip`. -/
theorem validateUpdateRace_ok :
    validateUpdateRace OptField.unset = Except.ok OptField.unset ∧
    validateUpdateRace OptField.null = Except.ok OptField.null ∧
    ∀ r : Race, validateUpdateRace (OptField.val r) =
      Except.ok (OptField.val r.value) := by
  refine ⟨rfl, rfl, fun r => ?_⟩
  simp [validateUpdateRace, raceRoundTrip r]

/-- What a successful commit of the mutation step says about the written
row. -/
theorem applyUpdate_eq_some {A row : StoredAnimal} {u : AnimalUpdate}
    {rf : OptField String} (h : applyUpdate A u rf = some row) :
    row.id = A.id ∧ row.created_at = A.created_at ∧
    applyField A.name u.name = some row.name ∧
    applyField A.race rf = some row.race ∧
    applyField A.status (u.status.map Status.value) = some row.status ∧
    applyField A.birth_date u.birth_date = some row.birth_date := by
  cases h1 : applyField A.name u.name with
  | none => simp [applyUpdate, h1] at h
  | some n =>
    cases h2 : applyField A.race rf with
    | none => simp [applyUpdate, h1, h2] at h
    | some r =>
      cases h3 : applyField A.status (u.status.map Status.value) with
      | none => simp [applyUpdate, h1, h2, h3] at h
      | some s =>
        cases h4 : applyField A.birth_date u.birth_date with
        | none => simp [applyUpdate, h1, h2, h3, h4] at h
        | some b =>
          rw [applyUpdate, h1, h2, h3, h4] at h
          obtain rfl : _ = row := by injection h
          exact ⟨rfl, rfl, rfl, rfl, rfl, rfl⟩

/-! ## Claim theorems -/

/-- C10: the `status` query parameter of `GET /animals/` is never validated
against the `Status` enum.  For every integer `s` the request succeeds
(HTTP 200) and returns exactly the stored animals whose status equals `s`;
under the invariant that every stored status is 0 or 1, any other integer
yields the empty list rather than a client error. -/
theorem status_filter_never_validated (s : Int) (db : List StoredAnimal) :
    get_all_animals (some s) none db =
      Except.ok (db.filter fun a => a.status == s) ∧
    ((∀ a ∈ db, a.status = 0 ∨ a.status = 1) → s ≠ 0 → s ≠ 1 →
      get_all_animals (some s) none db = Except.ok []) := by
  constructor
  · rfl
  · intro hinv h0 h1
    have hnil : (db.filter fun a => a.status == s) = [] := by
      rw [List.filter_eq_nil_iff]
      intro a ha
      rcases hinv a ha with h | h <;> simp only [h, beq_iff_eq] <;> omega
    calc get_all_animals (some s) none db
        = Except.ok (db.filter fun a => a.status == s) := rfl
      _ = Except.ok [] := by rw [hnil]

/-- C10 witness: on the seeded table, whose statuses are all 0 or 1,
filtering by status 7 succeeds with the empty list. -/
theorem status_filter_never_validated_witness :
    get_all_animals (some 7) none initDb = Except.ok [] :=
  (status_filter_never_validated 7 initDb).2 (by decide) (by decide) (by decide)

/-- C6: a race filter that matches some `Race` member (case-insensitively by
value, name, or label), with no status filter, returns exactly the stored
animals whose `race` column equals that member's value: every returned
animal has that race and every stored animal of that race is returned. -/
theorem race_filter_exact (db : List StoredAnimal) (s : String) (rm : Race)
    (h : findRaceFilter s = some rm) :
    get_all_animals none (some s) db =
      Except.ok (db.filter fun a => a.race == rm.value) ∧
    ∀ a, a ∈ db.filter (fun a => a.race == rm.value) ↔
      a ∈ db ∧ a.race = rm.value := by
  have hne : (s == "") = false := by
    cases hs : s == "" with
    | false => rfl
    | true =>
      exfalso
      have hs' : s = "" := by simpa using hs
      rw [hs', findRaceFilter_empty] at h
      exact Option.noConfusion h
  constructor
  · simp only [get_all_animals, hne, Bool.false_eq_true, if_false, h]
  · intro a
    simp [List.mem_filter]

/-- C6 witness: filtering the seeded table by `race=chicken` (the enum name,
lower-cased) returns exactly the rows whose race is `"Poule"`. -/
theorem race_filter_exact_witness :
    get_all_animals none (some "chicken") initDb =
      Except.ok (initDb.filter fun a => a.race == Race.CHICKEN.value) :=
  (race_filter_exact initDb "chicken" Race.CHICKEN (by decide)).1

/-- C5: for an id that belongs to no animal, `GET`, `PUT` (with any body)
and `DELETE` on `/animals/{id}` all answer 404 and leave the table
unchanged. -/
theorem missing_id_not_found (db : List StoredAnimal) (i : Int)
    (h : ∀ a ∈ db, a.id ≠ i) :
    get_animal db i = Except.error ApiError.notFound ∧
    (∀ u, update_animal db i u = (Except.error ApiError.notFound, db)) ∧
    delete_animal db i = (Except.error ApiError.notFound, db) := by
  have hf : db.find? (fun a => a.id == i) = none :=
    List.find?_eq_none.mpr (fun a ha => by simpa using h a ha)
  refine ⟨?_, fun u => ?_, ?_⟩ <;>
    simp [get_animal, update_animal, delete_animal, hf]

/-- C5 witness: id 999 (used by the test suite as the nonexistent id) on the
seeded table. -/
theorem missing_id_not_found_witness :
    get_animal initDb 999 = Except.error ApiError.notFound ∧
    update_animal initDb 999
        ⟨OptField.val "X", OptField.unset, OptField.unset, OptField.unset⟩ =
      (Except.error ApiError.notFound, initDb) ∧
    delete_animal initDb 999 = (Except.error ApiError.notFound, initDb) := by
  obtain ⟨h1, h2, h3⟩ := missing_id_not_found initDb 999 (by decide)
  exact ⟨h1, h2 _, h3⟩

/-- C3: creating an animal whose name is already the exact (case-sensitive)
name of a stored animal answers 400 and leaves the table unchanged — no row
added, no row modified. -/
theorem duplicate_name_create_rejected (db : List StoredAnimal)
    (a : AnimalCreate) (now : Nat) (h : ∃ b ∈ db, b.name = a.name) :
    create_animal db a now = (Except.error ApiError.badRequest, db) := by
  obtain ⟨b, hb, hbname⟩ := h
  cases hfind : db.find? (fun x => x.name == a.name) with
  | none => exact absurd (List.find?_eq_none.mp hfind b hb) (by simp [hbname])
  | some c => simp [create_animal, hfind]

/-- C3 witness: re-creating `"Moo-tiful"` against the seeded table is
rejected and the table is unchanged. -/
theorem duplicate_name_create_rejected_witness :
    create_animal initDb ⟨"Moo-tiful", Race.DOG, Status.ALIVE, 2020⟩ 2024 =
      (Except.error ApiError.badRequest, initDb) :=
  duplicate_name_create_rejected initDb
    ⟨"Moo-tiful", Race.DOG, Status.ALIVE, 2020⟩ 2024 (by decide)

/-- C1 (the claim fails on the code): filtering by a race that matches no
`Race` member does not produce the claimed HTTP 400.  The handler parameter
`status` shadows the imported `fastapi.status` module, so building the
intended `HTTPException` evaluates `status.HTTP_400_BAD_REQUEST` on `None`
or an `int` and raises `AttributeError` — an unhandled server error
(HTTP 500) — whatever the status filter is. -/
theorem unknown_race_filter_server_error :
    get_all_animals none (some "dragon") initDb =
      Except.error ApiError.serverError ∧
    get_all_animals (some 1) (some "dragon") initDb =
      Except.error ApiError.serverError ∧
    get_all_animals (some 0) (some "dragon") initDb =
      Except.error ApiError.serverError ∧
    get_all_animals none (some "dragon") initDb ≠
      Except.error ApiError.badRequest := by
  refine ⟨by decide, by decide, by decide, by decide⟩

/-- C9: comparison of the relational list/filter handler with the
spec-modelled in-memory variant.  They agree whenever the race filter is
absent, empty, or matches a member; on an unknown race the in-memory variant
returns the client error the spec prescribes while the relational handler
raises an unhandled `AttributeError` (server error), so the two are not
behaviorally equivalent as the claim states. -/
theorem in_memory_variant_divergence :
    (∀ sQ db, mem_list_animals sQ none db = get_all_animals sQ none db) ∧
    (∀ sQ s db, (s = "" ∨ findRaceFilter s ≠ none) →
      mem_list_animals sQ (some s) db = get_all_animals sQ (some s) db) ∧
    mem_list_animals none (some "dragon") initDb =
      Except.error ApiError.badRequest ∧
    get_all_animals none (some "dragon") initDb =
      Except.error ApiError.serverError := by
  refine ⟨fun sQ db => rfl, ?_, by decide, by decide⟩
  intro sQ s db h
  rcases h with rfl | h
  · rfl
  · unfold mem_list_animals get_all_animals
    cases hf : findRaceFilter s with
    | none => exact absurd hf h
    | some m => cases s == "" <;> simp [hf]

/-- C9 witness: on a known race filter the two implementations agree. -/
theorem in_memory_variant_divergence_witness :
    mem_list_animals none (some "Vache") initDb =
      get_all_animals none (some "Vache") initDb :=
  in_memory_variant_divergence.2.1 none "Vache" initDb (Or.inr (by decide))

/-- C8: deleting a stored animal answers 204 and removes exactly that
record: the result is `ok`, a subsequent get of the id answers 404, every
other animal is still present, nothing new appears, and the table shrinks by
one.  `hid` is the primary-key uniqueness of the `id` column. -/
theorem delete_hard_removes (db : List StoredAnimal) (A : StoredAnimal)
    (hid : (db.map fun a => a.id).Nodup) (hA : A ∈ db) :
    (delete_animal db A.id).1 = Except.ok () ∧
    get_animal (delete_animal db A.id).2 A.id = Except.error ApiError.notFound ∧
    (∀ b ∈ db, b ≠ A → b ∈ (delete_animal db A.id).2) ∧
    (∀ b ∈ (delete_animal db A.id).2, b ∈ db) ∧
    (delete_animal db A.id).2.length + 1 = db.length := by
  have hfind : db.find? (fun a => a.id == A.id) = some A := find?_id_self hid hA
  have hdel : delete_animal db A.id =
      (Except.ok (), db.eraseP (fun a => a.id == A.id)) := by
    simp [delete_animal, hfind]
  obtain ⟨a', l₁, l₂, hl₁, hpa, hsplit, herase⟩ :=
    List.exists_of_eraseP (p := fun a => a.id == A.id) hA (by simp)
  have ha'mem : a' ∈ db := by
    rw [hsplit]; exact List.mem_append_right _ (List.mem_cons_self _ _)
  have ha'A : a' = A := List.inj_on_of_nodup_map hid ha'mem hA (by simpa using hpa)
  rw [ha'A] at hsplit
  have hAid_notin : A.id ∉ (l₁ ++ l₂).map fun a => a.id := by
    rw [hsplit] at hid
    rw [List.map_append, List.map_cons] at hid
    have h' := List.nodup_middle.mp hid
    rw [List.nodup_cons] at h'
    simpa [List.map_append] using h'.1
  have hnotin : ∀ b ∈ l₁ ++ l₂, b.id ≠ A.id := by
    intro b hb hbid
    exact hAid_notin (by rw [← hbid]; exact List.mem_map_of_mem _ hb)
  have hfind2 : (l₁ ++ l₂).find? (fun a => a.id == A.id) = none :=
    List.find?_eq_none.mpr (fun b hb => by simpa using hnotin b hb)
  refine ⟨by rw [hdel], ?_, ?_, ?_, ?_⟩
  · rw [hdel]
    simp only [get_animal, herase, hfind2]
  · intro b hb hbA
    rw [hdel]
    simp only [herase]
    rw [hsplit] at hb
    rcases List.mem_append.mp hb with hb1 | hb2
    · exact List.mem_append_left _ hb1
    · rcases List.mem_cons.mp hb2 with rfl | hb3
      · exact absurd rfl hbA
      · exact List.mem_append_right _ hb3
  · intro b hb
    rw [hdel] at hb
    simp only [herase] at hb
    rw [hsplit]
    rcases List.mem_append.mp hb with hb1 | hb2
    · exact List.mem_append_left _ hb1
    · exact List.mem_append_right _ (List.mem_cons_of_mem _ hb2)
  · rw [hdel, herase, hsplit]
    simp [List.length_append]
    omega

/-- C8 witness: deleting seeded row 3 succeeds and a subsequent get of id 3
answers 404. -/
theorem delete_hard_removes_witness :
    (delete_animal initDb 3).1 = Except.ok () ∧
    get_animal (delete_animal initDb 3).2 3 = Except.error ApiError.notFound := by
  have h := delete_hard_removes initDb
    { id := 3, name := "Hen-kerchief", race := Race.CHICKEN.value,
      status := Status.DEAD.value, birth_date := 1998, created_at := 1998 }
    (by decide) (by decide)
  exact ⟨h.1, h.2.1⟩

/-- C4: a partial update whose `name` field is the name of a different
stored animal (different id) answers 400 with the table unchanged, while an
update that re-submits the animal's own current name is not rejected by the
duplicate-name check.  `hn` is the spec's name-uniqueness invariant and
`hid` the primary-key uniqueness of `id`. -/
theorem rename_collision_rejected (db : List StoredAnimal) (A : StoredAnimal)
    (u : AnimalUpdate)
    (hn : (db.map fun a => a.name).Nodup)
    (hid : (db.map fun a => a.id).Nodup) (hA : A ∈ db) :
    (∀ B ∈ db, u.name = OptField.val B.name → B.id ≠ A.id →
      update_animal db A.id u = (Except.error ApiError.badRequest, db)) ∧
    (u.name = OptField.val A.name →
      (update_animal db A.id u).1 ≠ Except.error ApiError.badRequest) := by
  have hfind : db.find? (fun a => a.id == A.id) = some A := find?_id_self hid hA
  constructor
  · intro B hB hu hBA
    have hfn : db.find? (fun a => a.name == B.name) = some B := find?_name_self hn hB
    have hrej : updateNameRejected db A.id u.name = true := by
      rw [hu]
      simp only [updateNameRejected, hfn]
      simpa using hBA
    simp [update_animal, hfind, hrej]
  · intro hu
    have hfn : db.find? (fun a => a.name == A.name) = some A := find?_name_self hn hA
    have hrej : updateNameRejected db A.id u.name = false := by
      rw [hu]
      simp [updateNameRejected, hfn]
    have hok : ∃ rf, validateUpdateRace u.race = Except.ok rf := by
      cases hur : u.race with
      | unset => exact ⟨_, validateUpdateRace_ok.1⟩
      | null => exact ⟨_, validateUpdateRace_ok.2.1⟩
      | val r => exact ⟨_, validateUpdateRace_ok.2.2 r⟩
    obtain ⟨rf, hval⟩ := hok
    cases happ : applyUpdate A u rf with
    | some row => simp [update_animal, hfind, hrej, hval, happ]
    | none => simp [update_animal, hfind, hrej, hval, happ]

/-- C4 witness: renaming seeded row 1 to `"Moo-tiful"` (row 5's name) is
rejected with the table unchanged, while re-submitting row 1's own name is
not rejected by the duplicate-name check. -/
theorem rename_collision_rejected_witness :
    update_animal initDb 1
        ⟨OptField.val "Moo-tiful", OptField.unset, OptField.unset,
          OptField.unset⟩ =
      (Except.error ApiError.badRequest, initDb) ∧
    (update_animal initDb 1
        ⟨OptField.val "Obi-Wan Henobi", OptField.unset, OptField.unset,
          OptField.unset⟩).1 ≠
      Except.error ApiError.badRequest := by
  constructor
  · exact (rename_collision_rejected initDb
      { id := 1, name := "Obi-Wan Henobi", race := Race.CHICKEN.value,
        status := Status.ALIVE.value, birth_date := 2003, created_at := 2003 }
      ⟨OptField.val "Moo-tiful", OptField.unset, OptField.unset, OptField.unset⟩
      (by decide) (by decide) (by decide)).1
      { id := 5, name := "Moo-tiful", race := Race.COW.value,
        status := Status.ALIVE.value, birth_date := 1975, created_at := 1975 }
      (by decide) rfl (by decide)
  · exact (rename_collision_rejected initDb
      { id := 1, name := "Obi-Wan Henobi", race := Race.CHICKEN.value,
        status := Status.ALIVE.value, birth_date := 2003, created_at := 2003 }
      ⟨OptField.val "Obi-Wan Henobi", OptField.unset, OptField.unset, OptField.unset⟩
      (by decide) (by decide) (by decide)).2 rfl

/-- C7: a successful partial update modifies only the fields supplied in the
request: the written row keeps the id and `created_at` of the fetched row,
every mutable field absent from the request keeps its previous value, every
supplied field takes the supplied value, and all other rows of the table are
untouched (the split `l₁ ++ _ :: l₂` is preserved). -/
theorem partial_update_frame (db : List StoredAnimal) (i : Int)
    (u : AnimalUpdate) (row : StoredAnimal) (db' : List StoredAnimal)
    (h : update_animal db i u = (Except.ok row, db')) :
    ∃ l₁ A l₂, db = l₁ ++ A :: l₂ ∧ db' = l₁ ++ row :: l₂ ∧
      A.id = i ∧ row.id = A.id ∧ row.created_at = A.created_at ∧
      (u.name = OptField.unset → row.name = A.name) ∧
      (u.race = OptField.unset → row.race = A.race) ∧
      (u.status = OptField.unset → row.status = A.status) ∧
      (u.birth_date = OptField.unset → row.birth_date = A.birth_date) ∧
      (∀ s, u.name = OptField.val s → row.name = s) ∧
      (∀ r, u.race = OptField.val r → row.race = r.value) ∧
      (∀ st, u.status = OptField.val st → row.status = st.value) ∧
      (∀ n, u.birth_date = OptField.val n → row.birth_date = n) := by
  cases hfind : db.find? (fun a => a.id == i) with
  | none =>
    rw [update_animal, hfind] at h
    simp at h
  | some A =>
    rw [update_animal, hfind] at h
    by_cases hrej : updateNameRejected db i u.name
    · simp [hrej] at h
    · cases hval : validateUpdateRace u.race with
      | error e => simp [hrej, hval] at h
      | ok rf =>
        cases happ : applyUpdate A u rf with
        | none => simp [hrej, hval, happ] at h
        | some row2 =>
          simp only [hrej, Bool.false_eq_true, if_false, hval, happ] at h
          rw [Prod.mk.injEq] at h
          obtain ⟨hrow, hdb2⟩ := h
          have hrr : row2 = row := by injection hrow
          rw [hrr] at happ hdb2
          obtain ⟨l₁, l₂, hsplit, hl₁⟩ := find?_split hfind
          have hpA := List.find?_some hfind
          have hAi : A.id = i := by simpa using hpA
          have hrepl : replaceFirst (fun a => a.id == i) row db = l₁ ++ row :: l₂ := by
            rw [hsplit]; exact replaceFirst_append row l₁ A l₂ hl₁ hpA
          obtain ⟨hid, hca, hname, hrace, hstatus, hbirth⟩ := applyUpdate_eq_some happ
          refine ⟨l₁, A, l₂, hsplit, by rw [← hdb2, hrepl], hAi, hid, hca,
            ?_, ?_, ?_, ?_, ?_, ?_, ?_, ?_⟩
          · intro hu; rw [hu] at hname
            simp only [applyField, Option.some.injEq] at hname
            exact hname.symm
          · intro hu
            rw [hu, validateUpdateRace_ok.1] at hval
            have hrf : rf = OptField.unset := by
              injection hval with hv; exact hv.symm
            rw [hrf] at hrace
            simp only [applyField, Option.some.injEq] at hrace
            exact hrace.symm
          · intro hu; rw [hu] at hstatus
            simp only [OptField.map, applyField, Option.some.injEq] at hstatus
            exact hstatus.symm
          · intro hu; rw [hu] at hbirth
            simp only [applyField, Option.some.injEq] at hbirth
            exact hbirth.symm
          · intro s hu; rw [hu] at hname
            simp only [applyField, Option.some.injEq] at hname
            exact hname.symm
          · intro r hu
            rw [hu, validateUpdateRace_ok.2.2 r] at hval
            have hrf : rf = OptField.val r.value := by
              injection hval with hv; exact hv.symm
            rw [hrf] at hrace
            simp only [applyField, Option.some.injEq] at hrace
            exact hrace.symm
          · intro st hu; rw [hu] at hstatus
            simp only [OptField.map, applyField, Option.some.injEq] at hstatus
            exact hstatus.symm
          · intro n hu; rw [hu] at hbirth
            simp only [applyField, Option.some.injEq] at hbirth
            exact hbirth.symm


/-- C2: name uniqueness is an invariant of the store.  From any state whose
names are pairwise distinct (and whose ids are distinct — the `id` column is
the primary key), every create, update, and delete — succeeding or failing —
leaves the names pairwise distinct. -/
theorem name_uniqueness_invariant (db : List StoredAnimal)
    (hn : (db.map fun a => a.name).Nodup)
    (hid : (db.map fun a => a.id).Nodup) :
    (∀ a now, (((create_animal db a now).2).map fun b => b.name).Nodup) ∧
    (∀ i u, (((update_animal db i u).2).map fun b => b.name).Nodup) ∧
    (∀ i, (((delete_animal db i).2).map fun b => b.name).Nodup) := by
  refine ⟨?_, ?_, ?_⟩
  · intro a now
    cases hfind : db.find? (fun b => b.name == a.name) with
    | some c => simpa [create_animal, hfind] using hn
    | none =>
      cases hrace : findRaceByValueOrName a.race.value with
      | none => simpa [create_animal, hfind, hrace] using hn
      | some m =>
        have hres : (create_animal db a now).2 =
            db ++ [{ id := freshId db, name := a.name, race := m.value,
                     status := a.status.value, birth_date := a.birth_date,
                     created_at := now }] := by
          simp [create_animal, hfind, hrace]
        rw [hres, List.map_append, List.nodup_append]
        refine ⟨hn, List.nodup_singleton _, ?_⟩
        intro x hx hx2
        simp only [List.map_cons, List.map_nil, List.mem_singleton] at hx2
        obtain ⟨b, hb, hbname⟩ := List.mem_map.mp hx
        have hnone := List.find?_eq_none.mp hfind b hb
        rw [hbname, hx2] at hnone
        simp at hnone
  · intro i u
    cases hfind : db.find? (fun a => a.id == i) with
    | none => simpa [update_animal, hfind] using hn
    | some A =>
      by_cases hrej : updateNameRejected db i u.name
      · simpa [update_animal, hfind, hrej] using hn
      · cases hval : validateUpdateRace u.race with
        | error e => simpa [update_animal, hfind, hrej, hval] using hn
        | ok rf =>
          cases happ : applyUpdate A u rf with
          | none => simpa [update_animal, hfind, hrej, hval, happ] using hn
          | some row =>
            have hres : (update_animal db i u).2 =
                replaceFirst (fun a => a.id == i) row db := by
              simp [update_animal, hfind, hrej, hval, happ]
            obtain ⟨l₁, l₂, hsplit, hl₁⟩ := find?_split hfind
            have hpA := List.find?_some hfind
            have hAmem : A ∈ db := List.mem_of_find?_eq_some hfind
            have hrepl : replaceFirst (fun a => a.id == i) row db =
                l₁ ++ row :: l₂ := by
              rw [hsplit]; exact replaceFirst_append row l₁ A l₂ hl₁ hpA
            rw [hres, hrepl]
            have hnameRow : row.name = A.name ∨
                (∀ b ∈ db, b.name ≠ row.name) := by
              obtain ⟨_, _, hname, _, _, _⟩ := applyUpdate_eq_some happ
              cases hu : u.name with
              | unset =>
                rw [hu] at hname
                simp only [applyField, Option.some.injEq] at hname
                exact Or.inl hname.symm
              | null =>
                rw [hu] at hname
                simp only [applyField] at hname
                exact absurd hname (by simp)
              | val s =>
                rw [hu] at hname
                simp only [applyField, Option.some.injEq] at hname
                rw [hu] at hrej
                cases hfn : db.find? (fun a => a.name == s) with
                | none =>
                  refine Or.inr ?_
                  intro b hb hbs
                  have hcontra := List.find?_eq_none.mp hfn b hb
                  rw [hbs, ← hname] at hcontra
                  simp at hcontra
                | some e =>
                  simp only [updateNameRejected, hfn] at hrej
                  have heid : e.id = i := by simpa using hrej
                  have hemem := List.mem_of_find?_eq_some hfn
                  have hename : e.name = s := by simpa using List.find?_some hfn
                  have hAi : A.id = i := by simpa using hpA
                  have heA : e = A :=
                    List.inj_on_of_nodup_map hid hemem hAmem (by rw [heid, hAi])
                  rw [heA] at hename
                  rw [← hname, ← hename]
                  exact Or.inl rfl
            rw [hsplit] at hn
            rw [List.map_append, List.map_cons] at hn ⊢
            rw [List.nodup_middle] at hn ⊢
            rw [List.nodup_cons] at hn ⊢
            obtain ⟨hAnotin, hrest⟩ := hn
            refine ⟨?_, hrest⟩
            rcases hnameRow with hsame | hfresh
            · rw [hsame]; exact hAnotin
            · intro hmem
              rw [← List.map_append] at hmem
              obtain ⟨b, hb, hbname⟩ := List.mem_map.mp hmem
              have hbdb : b ∈ db := by
                rw [hsplit]
                rcases List.mem_append.mp hb with h1 | h2
                · exact List.mem_append_left _ h1
                · exact List.mem_append_right _ (List.mem_cons_of_mem _ h2)
              exact hfresh b hbdb hbname
  · intro i
    cases hfind : db.find? (fun a => a.id == i) with
    | none => simpa [delete_animal, hfind] using hn
    | some A =>
      have hres : (delete_animal db i).2 =
          db.eraseP (fun a => a.id == i) := by
        simp [delete_animal, hfind]
      rw [hres]
      exact List.Nodup.sublist ((List.eraseP_sublist db).map _) hn

/-- C2 witness: a fresh create, a rename, and a delete on the seeded table
all preserve the pairwise distinctness of names. -/
theorem name_uniqueness_invariant_witness :
    (((create_animal initDb
        ⟨"Rex", Race.DOG, Status.ALIVE, 2020⟩ 2024).2).map
      fun b => b.name).Nodup ∧
    (((update_animal initDb 1
        ⟨OptField.val "Hen Solo", OptField.unset, OptField.unset,
          OptField.unset⟩).2).map fun b => b.name).Nodup ∧
    (((delete_animal initDb 3).2).map fun b => b.name).Nodup := by
  obtain ⟨h1, h2, h3⟩ := name_uniqueness_invariant initDb (by decide) (by decide)
  exact ⟨h1 _ _, h2 _ _, h3 _⟩

/-- C7 witness: applying `demoUpdate` (name only) to seeded row 1 leaves id
and `created_at` intact, keeps race, status and birth year, sets the new
name, and leaves rows 2-6 untouched. -/
theorem partial_update_frame_witness :
    ∃ l₁ A l₂, initDb = l₁ ++ A :: l₂ ∧ demoDb2 = l₁ ++ demoRow :: l₂ ∧
      A.id = 1 ∧ demoRow.id = A.id ∧ demoRow.created_at = A.created_at ∧
      (demoUpdate.name = OptField.unset → demoRow.name = A.name) ∧
      (demoUpdate.race = OptField.unset → demoRow.race = A.race) ∧
      (demoUpdate.status = OptField.unset → demoRow.status = A.status) ∧
      (demoUpdate.birth_date = OptField.unset →
        demoRow.birth_date = A.birth_date) ∧
      (∀ s, demoUpdate.name = OptField.val s → demoRow.name = s) ∧
      (∀ r, demoUpdate.race = OptField.val r → demoRow.race = r.value) ∧
      (∀ st, demoUpdate.status = OptField.val st → demoRow.status = st.value) ∧
      (∀ n, demoUpdate.birth_date = OptField.val n → demoRow.birth_date = n) :=
  partial_update_frame initDb 1 demoUpdate demoRow demoDb2 (by decide)
